import Mathlib

/-!
Verification of the sliding-tile puzzle engine (`sliding_puzzle.py`).

The data model and all state-changing operations of the game are embedded
below as executable Lean definitions that mirror the Python source
line by line: `Tile` with its `animate` / `is_animating` methods, and the
`SlidingPuzzle` operations `init_puzzle`, `shuffle_puzzle`,
`get_valid_moves`, `get_tile_at_pos`, `swap_tiles`, `handle_click`,
`handle_key`, `check_win_condition` and `update`.  Grid coordinates are
`ℤ × ℤ` (Python ints, `(col, row)` order as in the source), pixel
coordinates are `ℚ × ℚ` (exact arithmetic in place of Python floats),
and Python floor division `//` is `Int.fdiv`.
-/

/-- Constant `TILE_SIZE` from the source. -/
def TILE_SIZE : ℤ := 120

/-- Constant `GRID_MARGIN` from the source. -/
def GRID_MARGIN : ℤ := 10

/-- Constant `ANIMATION_SPEED` from the source. -/
def ANIMATION_SPEED : ℚ := 15

/-- Constant `WINDOW_WIDTH` from the source. -/
def WINDOW_WIDTH : ℤ := 800

/-- `TILE_SIZE + GRID_MARGIN`, the pixel stride between grid cells. -/
def pixelsPerCell : ℚ := ((TILE_SIZE + GRID_MARGIN : ℤ) : ℚ)

/-- The `Tile` class: `number` (0 is the empty slot), the authoritative
`grid_pos`, the animation goal `target_pos`, the rendering position
`current_pixel_pos`, and the static `image_rect` (origin and size). -/
structure Tile where
  number : ℕ
  grid_pos : ℤ × ℤ
  target_pos : ℤ × ℤ
  current_pixel_pos : ℚ × ℚ
  image_rect : (ℤ × ℤ) × (ℤ × ℤ)
  deriving DecidableEq

/-- One axis of `Tile.animate`: move a fraction `1/ANIMATION_SPEED` of the
remaining distance toward the target, snapping exactly when the remaining
distance is not greater than 1 (`if abs(dx) > 1: ... else: pos = target`). -/
def tickAxis (cur target : ℚ) : ℚ :=
  let d := target - cur
  if 1 < |d| then cur + d / ANIMATION_SPEED else target

/-- `Tile.animate`: advance `current_pixel_pos` toward the pixel image of
`target_pos` one frame, and commit `grid_pos := target_pos` exactly when
both pixel coordinates have arrived. -/
def Tile.animate (t : Tile) : Tile :=
  let target_pixel_x : ℚ := (t.target_pos.1 : ℚ) * pixelsPerCell
  let target_pixel_y : ℚ := (t.target_pos.2 : ℚ) * pixelsPerCell
  let px := tickAxis t.current_pixel_pos.1 target_pixel_x
  let py := tickAxis t.current_pixel_pos.2 target_pixel_y
  let g := if px = target_pixel_x ∧ py = target_pixel_y then t.target_pos else t.grid_pos
  { t with current_pixel_pos := (px, py), grid_pos := g }

/-- `Tile.is_animating`: the tile is mid-flight while its committed grid
position differs from its target. -/
def Tile.is_animating (t : Tile) : Bool :=
  decide (t.grid_pos ≠ t.target_pos)

/-- The fixed point that `Tile.animate` converges to: grid position
committed to the target and pixel position exactly at the target pixels. -/
def Tile.settle (t : Tile) : Tile :=
  { t with grid_pos := t.target_pos,
           current_pixel_pos := ((t.target_pos.1 : ℚ) * pixelsPerCell,
                                 (t.target_pos.2 : ℚ) * pixelsPerCell) }

/-- The mutable game state of the `SlidingPuzzle` class (rendering-only
fields such as the clock, screen and buttons are outside the logic). -/
structure PState where
  grid_size : ℕ
  tiles : List Tile
  empty_pos : ℤ × ℤ
  moves : ℕ
  animating : Bool
  game_won : Bool
  deriving DecidableEq

/-- The tiles built by `init_puzzle`: row-major numbers `1..n²-1` with the
last cell holding the empty tile `0`; grid, target and pixel positions all
at the solved cell. -/
def initTiles (n : ℕ) : List Tile :=
  (List.range n).flatMap (fun row =>
    (List.range n).map (fun col =>
      let tile_num := row * n + col + 1
      let num := if tile_num = n * n then 0 else tile_num
      { number := num
        grid_pos := ((col : ℤ), (row : ℤ))
        target_pos := ((col : ℤ), (row : ℤ))
        current_pixel_pos := ((col : ℚ) * pixelsPerCell, (row : ℚ) * pixelsPerCell)
        image_rect := (((col : ℤ) * TILE_SIZE, (row : ℤ) * TILE_SIZE),
                       (TILE_SIZE, TILE_SIZE)) }))

/-- The state `init_puzzle` produces before the shuffle: solved tiles,
empty position at the bottom-right corner, zero moves, no animation. -/
def initState (n : ℕ) : PState :=
  { grid_size := n
    tiles := initTiles n
    empty_pos := ((n : ℤ) - 1, (n : ℤ) - 1)
    moves := 0
    animating := false
    game_won := false }

/-- `get_tile_at_pos`: first tile whose `grid_pos` equals the queried
position, if any. -/
def get_tile_at_pos (tiles : List Tile) (pos : ℤ × ℤ) : Option Tile :=
  tiles.find? (fun t => decide (t.grid_pos = pos))

/-- Replace the first element satisfying the predicate (the Python code
mutates the single object returned by `get_tile_at_pos`). -/
def updateFirst (p : Tile → Bool) (f : Tile → Tile) : List Tile → List Tile
  | [] => []
  | t :: ts => if p t then f t :: ts else t :: updateFirst p f ts

/-- `swap_tiles`: if a tile with a nonzero number sits at `tile_pos`, send
it toward the empty cell (`update_position`, which only changes
`target_pos`), send the tile found at `empty_pos` toward the vacated cell,
move `empty_pos` there, and on a counted move bump `moves` and raise the
`animating` flag. -/
def swap_tiles (s : PState) (tile_pos : ℤ × ℤ) (count_move : Bool) : PState :=
  match get_tile_at_pos s.tiles tile_pos with
  | none => s
  | some tile =>
    if tile.number = 0 then s
    else
      let old_pos := tile.grid_pos
      let ts1 := updateFirst (fun t => decide (t.grid_pos = tile_pos))
        (fun t => { t with target_pos := s.empty_pos }) s.tiles
      let ts2 := updateFirst (fun t => decide (t.grid_pos = s.empty_pos))
        (fun t => { t with target_pos := old_pos }) ts1
      { s with tiles := ts2
               empty_pos := old_pos
               moves := if count_move then s.moves + 1 else s.moves
               animating := if count_move then true else s.animating }

/-- `get_valid_moves`: the up-to-four cells adjacent to `empty_pos` that
lie inside the grid, in the source's direction order. -/
def get_valid_moves (s : PState) : List (ℤ × ℤ) :=
  let ex := s.empty_pos.1
  let ey := s.empty_pos.2
  [(ex, ey + 1), (ex, ey - 1), (ex + 1, ey), (ex - 1, ey)].filter
    (fun c => decide (0 ≤ c.1 ∧ c.1 < (s.grid_size : ℤ) ∧ 0 ≤ c.2 ∧ c.2 < (s.grid_size : ℤ)))

/-- `shuffle_puzzle`: one silent `swap_tiles` per step; the random
`random.choice(valid_moves)` is modelled by an explicit list of chosen
cells, each step acting only when its choice is a currently valid move
(as any value produced by `random.choice` is). -/
def shuffle_puzzle (s : PState) : List (ℤ × ℤ) → PState
  | [] => s
  | p :: ps =>
    shuffle_puzzle (if p ∈ get_valid_moves s then swap_tiles s p false else s) ps

/-- The grid offsets computed in `__init__` from the window size. -/
def grid_offset (n : ℕ) : ℤ × ℤ :=
  ((WINDOW_WIDTH - (TILE_SIZE * (n : ℤ) + GRID_MARGIN * ((n : ℤ) - 1))).fdiv 2, 120)

/-- The grid cell `handle_click` derives from a mouse position via Python
floor division. -/
def gridCellOfMouse (n : ℕ) (mouse_pos : ℤ × ℤ) : ℤ × ℤ :=
  ((mouse_pos.1 - (grid_offset n).1).fdiv (TILE_SIZE + GRID_MARGIN),
   (mouse_pos.2 - (grid_offset n).2).fdiv (TILE_SIZE + GRID_MARGIN))

/-- `handle_click`: ignore input when won or animating; otherwise convert
the mouse position to a grid cell and play it when it is a valid move. -/
def handle_click (s : PState) (mouse_pos : ℤ × ℤ) : PState :=
  if s.game_won || s.animating then s
  else
    let gx := (gridCellOfMouse s.grid_size mouse_pos).1
    let gy := (gridCellOfMouse s.grid_size mouse_pos).2
    if 0 ≤ gx ∧ gx < (s.grid_size : ℤ) ∧ 0 ≤ gy ∧ gy < (s.grid_size : ℤ) then
      if (gx, gy) ∈ get_valid_moves s then swap_tiles s (gx, gy) true else s
    else s

/-- The four arrow keys of `handle_key`. -/
inductive GKey where
  | up | down | left | right
  deriving DecidableEq

/-- `handle_key`: arrow keys move the empty cell by the source's
`move_map`; the tile at the resulting in-bounds cell slides. -/
def handle_key (s : PState) (k : GKey) : PState :=
  if s.game_won || s.animating then s
  else
    let d : ℤ × ℤ :=
      match k with
      | .up => (0, 1)
      | .down => (0, -1)
      | .left => (1, 0)
      | .right => (-1, 0)
    let new_x := s.empty_pos.1 + d.1
    let new_y := s.empty_pos.2 + d.2
    if 0 ≤ new_x ∧ new_x < (s.grid_size : ℤ) ∧ 0 ≤ new_y ∧ new_y < (s.grid_size : ℤ) then
      swap_tiles s (new_x, new_y) true
    else s

/-- `check_win_condition`: every tile's committed grid position equals the
expected cell computed from its number. -/
def check_win_condition (s : PState) : Bool :=
  s.tiles.all (fun t =>
    let expected_x : ℤ :=
      if 0 < t.number then ((t.number : ℤ) - 1) % (s.grid_size : ℤ) else (s.grid_size : ℤ) - 1
    let expected_y : ℤ :=
      if 0 < t.number then ((t.number : ℤ) - 1) / (s.grid_size : ℤ) else (s.grid_size : ℤ) - 1
    decide (t.grid_pos = (expected_x, expected_y)))

/-- The per-frame `update`: animate every tile, recompute the `animating`
flag, and after animations finish (with at least one counted move) set
`game_won` when the win condition holds. -/
def update (s : PState) : PState :=
  let ts := s.tiles.map Tile.animate
  let any_animating := ts.any Tile.is_animating
  let s' := { s with tiles := ts, animating := any_animating }
  if any_animating = false ∧ s.game_won = false ∧ 0 < s.moves ∧ check_win_condition s' = true
  then { s' with game_won := true }
  else s'

/-- All state after every tile of the list is fully settled: the limit the
per-frame `update` converges to on the tile component. -/
def settleTiles (ts : List Tile) : List Tile :=
  ts.map Tile.settle

/-- A cell lies inside the `n × n` grid. -/
def inGrid (n : ℕ) (c : ℤ × ℤ) : Prop :=
  0 ≤ c.1 ∧ c.1 < (n : ℤ) ∧ 0 ≤ c.2 ∧ c.2 < (n : ℤ)

instance (n : ℕ) (c : ℤ × ℤ) : Decidable (inGrid n c) := by
  unfold inGrid; infer_instance

/-- Two cells are 4-adjacent: they differ by one step along exactly one
axis. -/
def adj4 (a b : ℤ × ℤ) : Prop :=
  (a.1 = b.1 ∧ (a.2 = b.2 + 1 ∨ a.2 = b.2 - 1)) ∨
  (a.2 = b.2 ∧ (a.1 = b.1 + 1 ∨ a.1 = b.1 - 1))

instance (a b : ℤ × ℤ) : Decidable (adj4 a b) := by
  unfold adj4; infer_instance

/-- One observable step of the game loop: a mouse click, a key press, one
silent shuffle step (with a choice the shuffler could make), or one
animation frame. -/
inductive Step : PState → PState → Prop where
  | click (s : PState) (m : ℤ × ℤ) : Step s (handle_click s m)
  | key (s : PState) (k : GKey) : Step s (handle_key s k)
  | shuffle (s : PState) (p : ℤ × ℤ) (hp : p ∈ get_valid_moves s) :
      Step s (swap_tiles s p false)
  | tick (s : PState) : Step s (update s)

/-- States the game can reach from the freshly initialised puzzle. -/
def Reachable (s : PState) : Prop :=
  Relation.ReflTransGen Step (initState s.grid_size) s

/-- The `(number, grid_pos)` assignment of a state: the Grid Model's
permutation of tile labels over cells. -/
def gridConfig (s : PState) : List (ℕ × (ℤ × ℤ)) :=
  s.tiles.map (fun t => (t.number, t.grid_pos))

/-- A well-formed board: committed grid positions are distinct, every
in-grid cell is occupied, a tile is the empty tile exactly when it sits at
`empty_pos`, and `empty_pos` is in the grid. -/
def WellFormed (s : PState) : Prop :=
  (s.tiles.map Tile.grid_pos).Nodup ∧
  (∀ c, inGrid s.grid_size c → ∃ t ∈ s.tiles, t.grid_pos = c) ∧
  (∀ t ∈ s.tiles, (t.number = 0 ↔ t.grid_pos = s.empty_pos)) ∧
  inGrid s.grid_size s.empty_pos

/-- No animation is pending: every tile's target equals its committed grid
position. -/
def Settled (s : PState) : Prop :=
  ∀ t ∈ s.tiles, t.target_pos = t.grid_pos

/-- The retargeting a `swap_tiles` call performs on an individual tile of
a duplicate-free board: the tile at cell `a` is sent toward `b` and the
tile at cell `b` toward `a`. -/
def retarget (a b : ℤ × ℤ) (u : Tile) : Tile :=
  if u.grid_pos = a then { u with target_pos := b }
  else if u.grid_pos = b then { u with target_pos := a }
  else u

theorem tickAxis_snap (cur target : ℚ) (h : ¬ 1 < |target - cur|) :
    tickAxis cur target = target := by
  unfold tickAxis
  simp [h]

theorem tickAxis_self (target : ℚ) : tickAxis target target = target := by
  unfold tickAxis
  norm_num

theorem tickAxis_dist (cur target : ℚ) (h : 1 < |target - cur|) :
    target - tickAxis cur target = (target - cur) * (14 / 15) := by
  unfold tickAxis
  simp only [h, if_true, ANIMATION_SPEED]
  ring

theorem tickAxis_iterate_fixed (target : ℚ) (m : ℕ) :
    (fun c => tickAxis c target)^[m] target = target := by
  apply Function.iterate_fixed
  exact tickAxis_self target

theorem tickAxis_reaches (target : ℚ) :
    ∀ (N : ℕ) (cur : ℚ), |target - cur| ≤ (15 / 14) ^ N →
      (fun c => tickAxis c target)^[N + 1] cur = target := by
  intro N
  induction N with
  | zero =>
    intro cur h
    simpa using tickAxis_snap cur target (by simpa using h)
  | succ N ih =>
    intro cur h
    by_cases h1 : 1 < |target - cur|
    · rw [show N + 1 + 1 = (N + 1) + 1 from rfl, Function.iterate_succ_apply]
      apply ih
      have hd : target - tickAxis cur target = (target - cur) * (14 / 15) :=
        tickAxis_dist cur target h1
      have : |target - tickAxis cur target| = |target - cur| * (14 / 15) := by
        rw [hd, abs_mul]
        norm_num
      rw [this]
      have hb : |target - cur| * (14 / 15) ≤ (15 / 14) ^ (N + 1) * (14 / 15) :=
        mul_le_mul_of_nonneg_right h (by norm_num)
      calc |target - cur| * (14 / 15) ≤ (15 / 14) ^ (N + 1) * (14 / 15) := hb
        _ = (15 / 14 : ℚ) ^ N := by rw [pow_succ]; ring
    · rw [Function.iterate_succ_apply]
      have hc : tickAxis cur target = target := tickAxis_snap cur target h1
      rw [hc]
      exact tickAxis_iterate_fixed target (N + 1)

theorem tickAxis_terminates (cur target : ℚ) :
    ∃ k, 1 ≤ k ∧ ∀ j, k ≤ j → (fun c => tickAxis c target)^[j] cur = target := by
  obtain ⟨N, hN⟩ := pow_unbounded_of_one_lt (α := ℚ) |target - cur| (by norm_num : (1 : ℚ) < 15 / 14)
  refine ⟨N + 1, Nat.le_add_left 1 N, ?_⟩
  intro j hj
  have hbase : (fun c => tickAxis c target)^[N + 1] cur = target :=
    tickAxis_reaches target N cur (le_of_lt hN)
  have hsplit : j = (j - (N + 1)) + (N + 1) := (Nat.sub_add_cancel hj).symm
  rw [hsplit, Function.iterate_add_apply, hbase]
  exact tickAxis_iterate_fixed target _

theorem animate_iterate_shape (t : Tile) (k : ℕ) :
    ∃ g, Tile.animate^[k] t =
      { t with grid_pos := g,
               current_pixel_pos :=
                 ((fun c => tickAxis c ((t.target_pos.1 : ℚ) * pixelsPerCell))^[k]
                    t.current_pixel_pos.1,
                  (fun c => tickAxis c ((t.target_pos.2 : ℚ) * pixelsPerCell))^[k]
                    t.current_pixel_pos.2) } := by
  induction k with
  | zero => exact ⟨t.grid_pos, by simp⟩
  | succ k ih =>
    obtain ⟨g, hg⟩ := ih
    rw [Function.iterate_succ_apply', hg]
    refine ⟨if tickAxis ((fun c => tickAxis c ((t.target_pos.1 : ℚ) * pixelsPerCell))^[k]
          t.current_pixel_pos.1) ((t.target_pos.1 : ℚ) * pixelsPerCell) =
          (t.target_pos.1 : ℚ) * pixelsPerCell ∧
        tickAxis ((fun c => tickAxis c ((t.target_pos.2 : ℚ) * pixelsPerCell))^[k]
          t.current_pixel_pos.2) ((t.target_pos.2 : ℚ) * pixelsPerCell) =
          (t.target_pos.2 : ℚ) * pixelsPerCell
      then t.target_pos else g, ?_⟩
    simp only [Tile.animate, Function.iterate_succ_apply']

theorem animate_settle_fixed (t : Tile) :
    Tile.animate (Tile.settle t) = Tile.settle t := by
  unfold Tile.animate Tile.settle
  simp [tickAxis_self]

theorem animate_commits (t : Tile) :
    ∀ k, 1 ≤ k →
      (fun c => tickAxis c ((t.target_pos.1 : ℚ) * pixelsPerCell))^[k] t.current_pixel_pos.1 =
        (t.target_pos.1 : ℚ) * pixelsPerCell →
      (fun c => tickAxis c ((t.target_pos.2 : ℚ) * pixelsPerCell))^[k] t.current_pixel_pos.2 =
        (t.target_pos.2 : ℚ) * pixelsPerCell →
      Tile.animate^[k] t = Tile.settle t := by
  intro k
  induction k with
  | zero => intro h; omega
  | succ k ih =>
    intro _ hx hy
    simp only [Function.iterate_succ_apply'] at hx hy
    by_cases hk : 1 ≤ k
    · by_cases harr :
        (fun c => tickAxis c ((t.target_pos.1 : ℚ) * pixelsPerCell))^[k] t.current_pixel_pos.1 =
            (t.target_pos.1 : ℚ) * pixelsPerCell ∧
          (fun c => tickAxis c ((t.target_pos.2 : ℚ) * pixelsPerCell))^[k] t.current_pixel_pos.2 =
            (t.target_pos.2 : ℚ) * pixelsPerCell
      · rw [Function.iterate_succ_apply', ih hk harr.1 harr.2]
        exact animate_settle_fixed t
      · obtain ⟨g, hg⟩ := animate_iterate_shape t k
        rw [Function.iterate_succ_apply', hg]
        unfold Tile.animate Tile.settle
        simp [hx, hy]
    · have hk0 : k = 0 := by omega
      subst hk0
      simp only [Function.iterate_zero, id_eq] at hx hy
      simp only [Function.iterate_succ_apply', Function.iterate_zero, id_eq]
      unfold Tile.animate Tile.settle
      simp [hx, hy]

theorem animate_settles (t : Tile) :
    ∃ k, 1 ≤ k ∧ ∀ j, k ≤ j → Tile.animate^[j] t = Tile.settle t := by
  obtain ⟨kx, hkx1, hkx⟩ :=
    tickAxis_terminates t.current_pixel_pos.1 ((t.target_pos.1 : ℚ) * pixelsPerCell)
  obtain ⟨ky, hky1, hky⟩ :=
    tickAxis_terminates t.current_pixel_pos.2 ((t.target_pos.2 : ℚ) * pixelsPerCell)
  refine ⟨max kx ky, le_trans hkx1 (le_max_left kx ky), ?_⟩
  intro j hj
  exact animate_commits t j (le_trans hkx1 (le_trans (le_max_left kx ky) hj))
    (hkx j (le_trans (le_max_left kx ky) hj))
    (hky j (le_trans (le_max_right kx ky) hj))

theorem tiles_settle (ts : List Tile) :
    ∃ k, ∀ t ∈ ts, ∀ j, k ≤ j → Tile.animate^[j] t = Tile.settle t := by
  induction ts with
  | nil => exact ⟨0, by simp⟩
  | cons t ts ih =>
    obtain ⟨k1, _, h1⟩ := animate_settles t
    obtain ⟨k2, h2⟩ := ih
    refine ⟨max k1 k2, ?_⟩
    intro u hu j hj
    rcases List.mem_cons.1 hu with h | h
    · subst h; exact h1 j (le_trans (le_max_left k1 k2) hj)
    · exact h2 u h j (le_trans (le_max_right k1 k2) hj)

theorem update_components (s : PState) :
    (update s).tiles = s.tiles.map Tile.animate ∧
    (update s).empty_pos = s.empty_pos ∧
    (update s).moves = s.moves ∧
    (update s).grid_size = s.grid_size := by
  unfold update
  dsimp only
  split <;> simp

theorem update_iterate (s : PState) (k : ℕ) :
    (update^[k] s).tiles = s.tiles.map (Tile.animate^[k]) ∧
    (update^[k] s).empty_pos = s.empty_pos ∧
    (update^[k] s).moves = s.moves ∧
    (update^[k] s).grid_size = s.grid_size := by
  induction k with
  | zero => simp
  | succ k ih =>
    obtain ⟨ht, he, hm, hg⟩ := ih
    obtain ⟨ht', he', hm', hg'⟩ := update_components (update^[k] s)
    rw [Function.iterate_succ_apply']
    refine ⟨?_, by rw [he', he], by rw [hm', hm], by rw [hg', hg]⟩
    rw [ht', ht, List.map_map]
    rw [← Function.iterate_succ' Tile.animate k]

theorem last_cell (n row col : ℕ) (hrow : row < n) (hcol : col < n)
    (h : row * n + col + 1 = n * n) : row = n - 1 ∧ col = n - 1 := by
  have h3 : (n - 1) * n + n = n * n := by
    have e : n = (n - 1) + 1 := by omega
    calc (n - 1) * n + n = ((n - 1) + 1) * n := by rw [Nat.succ_mul]
      _ = n * n := by rw [← e]
  have hkey : row = n - 1 := by
    by_contra hne
    have hn2 : 2 ≤ n := by omega
    have hr2 : row ≤ n - 2 := by omega
    have hm : row * n ≤ (n - 2) * n := Nat.mul_le_mul_right n hr2
    have h2 : (n - 2) * n + n = (n - 1) * n := by
      have e : n - 1 = (n - 2) + 1 := by omega
      rw [e, Nat.succ_mul]
    linarith
  refine ⟨hkey, ?_⟩
  rw [hkey] at h
  have hc : col + 1 = n := by linarith
  omega

theorem update_reaches_settled (s : PState) :
    ∃ k, (update^[k] s).tiles = settleTiles s.tiles ∧
      (update^[k] s).empty_pos = s.empty_pos ∧
      (update^[k] s).moves = s.moves ∧
      (update^[k] s).grid_size = s.grid_size := by
  obtain ⟨k, hk⟩ := tiles_settle s.tiles
  obtain ⟨ht, he, hm, hg⟩ := update_iterate s k
  refine ⟨k, ?_, he, hm, hg⟩
  rw [ht]
  unfold settleTiles
  exact List.map_congr_left (fun t ht => hk t ht k le_rfl)

/-- C6: for every tile, whatever its starting visual (pixel) position and
its fixed target position, finitely many `Tile.animate` ticks make the
visual position exactly equal to the target pixel position (the sub-1-unit
clamp in `tickAxis` forces exact arrival), after which the tile reports
settled: `Tile.is_animating` is `false`. -/
theorem animation_terminates_and_settles (t : Tile) :
    ∃ k, (Tile.animate^[k] t).current_pixel_pos =
        ((t.target_pos.1 : ℚ) * pixelsPerCell, (t.target_pos.2 : ℚ) * pixelsPerCell) ∧
      Tile.is_animating (Tile.animate^[k] t) = false := by
  obtain ⟨k, _, hk⟩ := animate_settles t
  refine ⟨k, ?_, ?_⟩ <;> rw [hk k le_rfl] <;>
    simp [Tile.settle, Tile.is_animating]

/-- C5: `check_win_condition` is true exactly when every tile with a
positive number `L` occupies cell `((L-1) mod n, (L-1) div n)` and every
tile numbered `0` occupies the bottom-right corner `(n-1, n-1)`; moreover
it is true on the solved configuration `init_puzzle` builds before
shuffling, for every grid size `n ≥ 1`. -/
theorem check_win_iff_expected_cells :
    (∀ s : PState, check_win_condition s = true ↔
      ∀ t ∈ s.tiles,
        (0 < t.number → t.grid_pos =
          (((t.number : ℤ) - 1) % (s.grid_size : ℤ), ((t.number : ℤ) - 1) / (s.grid_size : ℤ))) ∧
        (t.number = 0 → t.grid_pos = ((s.grid_size : ℤ) - 1, (s.grid_size : ℤ) - 1))) ∧
    (∀ n : ℕ, 1 ≤ n → check_win_condition (initState n) = true) := by
  have main : ∀ s : PState, check_win_condition s = true ↔
      ∀ t ∈ s.tiles,
        (0 < t.number → t.grid_pos =
          (((t.number : ℤ) - 1) % (s.grid_size : ℤ), ((t.number : ℤ) - 1) / (s.grid_size : ℤ))) ∧
        (t.number = 0 → t.grid_pos = ((s.grid_size : ℤ) - 1, (s.grid_size : ℤ) - 1)) := by
    intro s
    unfold check_win_condition
    rw [List.all_eq_true]
    constructor
    · intro h t ht
      have h1 := h t ht
      dsimp only at h1
      rw [decide_eq_true_eq] at h1
      by_cases h0 : 0 < t.number
      · rw [if_pos h0, if_pos h0] at h1
        exact ⟨fun _ => h1, fun hz => by omega⟩
      · rw [if_neg h0, if_neg h0] at h1
        exact ⟨fun hp => absurd hp h0, fun _ => h1⟩
    · intro h t ht
      obtain ⟨h1, h2⟩ := h t ht
      dsimp only
      rw [decide_eq_true_eq]
      by_cases h0 : 0 < t.number
      · rw [if_pos h0, if_pos h0]
        exact h1 h0
      · rw [if_neg h0, if_neg h0]
        exact h2 (by omega)
  refine ⟨main, ?_⟩
  intro n hn
  rw [main]
  intro t ht
  unfold initState initTiles at ht
  dsimp only at ht
  rw [List.mem_flatMap] at ht
  obtain ⟨row, hrow, ht⟩ := ht
  rw [List.mem_map] at ht
  obtain ⟨col, hcol, rfl⟩ := ht
  rw [List.mem_range] at hrow
  rw [List.mem_range] at hcol
  dsimp only [initState]
  by_cases hl : row * n + col + 1 = n * n
  · obtain ⟨hr, hc⟩ := last_cell n row col hrow hcol hl
    refine ⟨fun hp => ?_, fun _ => ?_⟩
    · rw [if_pos hl] at hp
      omega
    · subst hr
      subst hc
      have hcast : ((n - 1 : ℕ) : ℤ) = (n : ℤ) - 1 := by omega
      rw [Prod.ext_iff]
      exact ⟨hcast, hcast⟩
  · refine ⟨fun _ => ?_, fun hz => ?_⟩
    · rw [if_neg hl]
      have hnum : (((row * n + col + 1 : ℕ) : ℤ) - 1) = (col : ℤ) + (n : ℤ) * (row : ℤ) := by
        push_cast
        ring
      rw [hnum]
      have hx : ((col : ℤ) + (n : ℤ) * (row : ℤ)) % (n : ℤ) = (col : ℤ) := by
        rw [Int.add_mul_emod_self_left]
        exact Int.emod_eq_of_lt (by positivity) (by exact_mod_cast hcol)
      have hy : ((col : ℤ) + (n : ℤ) * (row : ℤ)) / (n : ℤ) = (row : ℤ) := by
        rw [Int.add_mul_ediv_left _ _ (by exact_mod_cast (by omega : n ≠ 0))]
        rw [Int.ediv_eq_zero_of_lt (by positivity) (by exact_mod_cast hcol)]
        ring
      rw [Prod.ext_iff]
      exact ⟨hx.symm, hy.symm⟩
    · rw [if_neg hl] at hz
      omega

/-- C4: an attempted move whose derived grid cell is not in
`get_valid_moves`, or one made while an animation is in flight, is
rejected: `handle_click` returns the state unchanged (all tile positions,
`empty_pos` and `moves` included). -/
theorem rejected_click_is_noop (s : PState) (m : ℤ × ℤ)
    (h : s.animating = true ∨ gridCellOfMouse s.grid_size m ∉ get_valid_moves s) :
    handle_click s m = s := by
  unfold handle_click
  by_cases hw : (s.game_won || s.animating) = true
  · rw [if_pos hw]
  · rw [if_neg hw]
    rcases h with h | h
    · simp [h] at hw
    · dsimp only
      simp only [Prod.mk.eta]
      rcases Decidable.em (0 ≤ (gridCellOfMouse s.grid_size m).1 ∧
          (gridCellOfMouse s.grid_size m).1 < (s.grid_size : ℤ) ∧
          0 ≤ (gridCellOfMouse s.grid_size m).2 ∧
          (gridCellOfMouse s.grid_size m).2 < (s.grid_size : ℤ)) with hbnd | hbnd
      · rw [if_pos hbnd, if_neg h]
      · rw [if_neg hbnd]

/-- Witness for C4 at the freshly initialised 2×2 state and a mouse
position that falls outside the grid. -/
theorem rejected_click_is_noop_witness :
    ((initState 2).animating = true ∨
      gridCellOfMouse (initState 2).grid_size (0, 0) ∉ get_valid_moves (initState 2)) ∧
    handle_click (initState 2) (0, 0) = initState 2 :=
  ⟨Or.inr (by decide), rejected_click_is_noop (initState 2) (0, 0) (Or.inr (by decide))⟩

/-- Counterexample for C9: calling `swap_tiles` on the out-of-bounds cell
(5,5) of a 2×2 board does not fail loudly; it silently returns the state
completely unchanged. -/
theorem oob_swap_silently_ignored :
    swap_tiles (initState 2) (5, 5) true = initState 2 := rfl

/-- C9 as amended: when every tile sits inside the grid, a swap requested
at an out-of-bounds cell is a silent no-op (the position lookup finds no
tile, so the state is returned unchanged and no error of any kind is
raised). -/
theorem oob_swap_is_silent_noop (s : PState) (p : ℤ × ℤ) (c : Bool)
    (hb : ∀ t ∈ s.tiles, inGrid s.grid_size t.grid_pos)
    (hp : ¬ inGrid s.grid_size p) :
    swap_tiles s p c = s := by
  have hnone : get_tile_at_pos s.tiles p = none := by
    unfold get_tile_at_pos
    rw [List.find?_eq_none]
    intro t ht
    simp only [decide_eq_true_eq]
    intro he
    exact hp (he ▸ hb t ht)
  unfold swap_tiles
  rw [hnone]

/-- Witness for the amended C9 on the 2×2 initial board and cell (5,5). -/
theorem oob_swap_is_silent_noop_witness :
    (∀ t ∈ (initState 2).tiles, inGrid (initState 2).grid_size t.grid_pos) ∧
    ¬ inGrid (initState 2).grid_size ((5 : ℤ), (5 : ℤ)) ∧
    swap_tiles (initState 2) (5, 5) false = initState 2 :=
  ⟨by decide, by decide,
    oob_swap_is_silent_noop (initState 2) (5, 5) false (by decide) (by decide)⟩

/-- C10: `swap_tiles` called on the empty cell's own position (whenever
any tile sitting there is the empty tile, as in every coherent state) or
on any position holding no tile leaves the whole state unchanged — tiles,
`empty_pos`, `moves` and `animating` included — and, being total, raises
nothing. -/
theorem swap_at_empty_or_vacant_is_noop (s : PState) (p : ℤ × ℤ) (c : Bool) :
    ((∀ t ∈ s.tiles, t.grid_pos = s.empty_pos → t.number = 0) →
      swap_tiles s s.empty_pos c = s) ∧
    (get_tile_at_pos s.tiles p = none → swap_tiles s p c = s) := by
  constructor
  · intro h
    cases hf : get_tile_at_pos s.tiles s.empty_pos with
    | none => simp [swap_tiles, hf]
    | some t =>
      have ht : t ∈ s.tiles := List.mem_of_find?_eq_some hf
      have hgrid : t.grid_pos = s.empty_pos := by
        have := List.find?_some hf
        simpa using this
      simp [swap_tiles, hf, h t ht hgrid]
  · intro h
    simp [swap_tiles, h]

/-- Witness for C10 on the 2×2 initial board: swapping at the empty cell
(1,1) and at the vacant out-of-grid cell (5,5) both leave the state
unchanged. -/
theorem swap_at_empty_or_vacant_is_noop_witness :
    swap_tiles (initState 2) (initState 2).empty_pos true = initState 2 ∧
    swap_tiles (initState 2) (5, 5) true = initState 2 :=
  ⟨(swap_at_empty_or_vacant_is_noop (initState 2) (5, 5) true).1 (by decide),
   (swap_at_empty_or_vacant_is_noop (initState 2) (5, 5) true).2 (by decide)⟩

/-- C1 (refuted, code bug): two perfectly legal shuffle choices from the
solved 2×2 state — (1,0), then (0,0), each a member of the then-current
`get_valid_moves` — drive `shuffle_puzzle` into a configuration whose
committed positions, once all animations settle, put two tiles on cell
(1,0) and no tile on cell (1,1).  The result is not a permutation of the
grid cells, hence not reachable from solved by legal moves and not
solvable. -/
theorem shuffle_breaks_permutation :
    ((1, 0) ∈ get_valid_moves (initState 2)) ∧
    ((0, 0) ∈ get_valid_moves (swap_tiles (initState 2) (1, 0) false)) ∧
    (((settleTiles (shuffle_puzzle (initState 2) [(1, 0), (0, 0)]).tiles).filter
        (fun t => decide (t.grid_pos = (1, 0)))).length = 2 ∧
      ((settleTiles (shuffle_puzzle (initState 2) [(1, 0), (0, 0)]).tiles).filter
        (fun t => decide (t.grid_pos = (1, 1)))).length = 0) ∧
    (∃ k, (update^[k] (shuffle_puzzle (initState 2) [(1, 0), (0, 0)])).tiles =
      settleTiles (shuffle_puzzle (initState 2) [(1, 0), (0, 0)]).tiles) := by
  refine ⟨by decide, by decide, by decide, ?_⟩
  obtain ⟨k, hk, -⟩ := update_reaches_settled (shuffle_puzzle (initState 2) [(1, 0), (0, 0)])
  exact ⟨k, hk⟩

/-- C2 (refuted, code bug): after the state-mutating shuffle step that
moves cell (1,0) of the solved 2×2 board, `empty_pos` is (1,0) while the
label-0 tile's logical grid position is still (1,1): the claimed invariant
`empty_pos = cell of the label-0 tile` fails immediately after a
`swap_tiles` mutation. -/
theorem shuffle_step_desyncs_empty_pos :
    ((1, 0) ∈ get_valid_moves (initState 2)) ∧
    (shuffle_puzzle (initState 2) [(1, 0)]).empty_pos = (1, 0) ∧
    (∀ t ∈ (shuffle_puzzle (initState 2) [(1, 0)]).tiles,
      t.number = 0 → t.grid_pos = (1, 1)) ∧
    ((1, 0) : ℤ × ℤ) ≠ (1, 1) := by decide

/-- C3 (refuted, code bug): a silent shuffle step from the solved 2×2
state choosing cell (1,0) leaves `moves` and `animating` unchanged as
claimed, but does not update the logical grid instantly: the moved tile's
`grid_pos` is still its old cell (1,0), not the previous empty cell (1,1);
only its `target_pos` was set. -/
theorem silent_shuffle_step_leaves_logical_grid :
    ((1, 0) ∈ get_valid_moves (initState 2)) ∧
    (shuffle_puzzle (initState 2) [(1, 0)]).moves = (initState 2).moves ∧
    (shuffle_puzzle (initState 2) [(1, 0)]).animating = (initState 2).animating ∧
    (∀ t ∈ (shuffle_puzzle (initState 2) [(1, 0)]).tiles, t.number = 2 →
      (t.grid_pos = (1, 0) ∧ t.target_pos = (1, 1))) ∧
    ((1, 0) : ℤ × ℤ) ≠ (1, 1) := by decide

theorem valid_moves_in_grid (s : PState) (p : ℤ × ℤ) (hp : p ∈ get_valid_moves s) :
    inGrid s.grid_size p := by
  unfold get_valid_moves at hp
  rw [List.mem_filter] at hp
  have h2 := hp.2
  simp only [decide_eq_true_eq] at h2
  exact h2

theorem get_tile_at_pos_grid (ts : List Tile) (p : ℤ × ℤ) (t : Tile)
    (h : get_tile_at_pos ts p = some t) : t.grid_pos = p := by
  unfold get_tile_at_pos at h
  have := List.find?_some h
  simpa using this

theorem get_tile_at_pos_mem (ts : List Tile) (p : ℤ × ℤ) (t : Tile)
    (h : get_tile_at_pos ts p = some t) : t ∈ ts := by
  unfold get_tile_at_pos at h
  exact List.mem_of_find?_eq_some h

theorem swap_tiles_grid_size (s : PState) (p : ℤ × ℤ) (c : Bool) :
    (swap_tiles s p c).grid_size = s.grid_size := by
  cases hf : get_tile_at_pos s.tiles p with
  | none => simp [swap_tiles, hf]
  | some t => by_cases h0 : t.number = 0 <;> simp [swap_tiles, hf, h0]

theorem swap_tiles_empty_cases (s : PState) (p : ℤ × ℤ) (c : Bool) :
    (swap_tiles s p c).empty_pos = s.empty_pos ∨ (swap_tiles s p c).empty_pos = p := by
  cases hf : get_tile_at_pos s.tiles p with
  | none => left; simp [swap_tiles, hf]
  | some t =>
    by_cases h0 : t.number = 0
    · left; simp [swap_tiles, hf, h0]
    · right
      simp only [swap_tiles, hf, h0, if_neg h0]
      exact get_tile_at_pos_grid s.tiles p t hf

theorem step_preserves (s s' : PState) (h : Step s s')
    (he : inGrid s.grid_size s.empty_pos) :
    s'.grid_size = s.grid_size ∧ inGrid s'.grid_size s'.empty_pos := by
  cases h with
  | click m =>
    unfold handle_click
    by_cases hw : (s.game_won || s.animating) = true
    · rw [if_pos hw]; exact ⟨rfl, he⟩
    · rw [if_neg hw]
      dsimp only
      split
      · split
        · next hmem =>
          refine ⟨swap_tiles_grid_size s _ true, ?_⟩
          rw [swap_tiles_grid_size]
          rcases swap_tiles_empty_cases s _ true with hh | hh
          · rw [hh]; exact he
          · rw [hh]; exact valid_moves_in_grid s _ hmem
        · exact ⟨rfl, he⟩
      · exact ⟨rfl, he⟩
  | key k =>
    unfold handle_key
    by_cases hw : (s.game_won || s.animating) = true
    · rw [if_pos hw]; exact ⟨rfl, he⟩
    · rw [if_neg hw]
      dsimp only
      split
      · next hbnd =>
        refine ⟨swap_tiles_grid_size s _ true, ?_⟩
        rw [swap_tiles_grid_size]
        rcases swap_tiles_empty_cases s _ true with hh | hh
        · rw [hh]; exact he
        · rw [hh]; exact hbnd
      · exact ⟨rfl, he⟩
  | shuffle p hp =>
    refine ⟨swap_tiles_grid_size s p false, ?_⟩
    rw [swap_tiles_grid_size]
    rcases swap_tiles_empty_cases s p false with hh | hh
    · rw [hh]; exact he
    · rw [hh]; exact valid_moves_in_grid s p hp
  | tick =>
    obtain ⟨-, he', -, hg⟩ := update_components s
    rw [hg, he']
    exact ⟨rfl, he⟩

theorem reflTrans_preserves (a b : PState) (h : Relation.ReflTransGen Step a b)
    (ha : inGrid a.grid_size a.empty_pos) :
    b.grid_size = a.grid_size ∧ inGrid b.grid_size b.empty_pos := by
  induction h with
  | refl => exact ⟨rfl, ha⟩
  | tail hab hbc ih =>
    obtain ⟨hg, he⟩ := ih
    obtain ⟨hg', he'⟩ := step_preserves _ _ hbc he
    exact ⟨hg'.trans hg, he'⟩

theorem reachable_empty_in_grid (s : PState) (h : Reachable s) (hn : 1 ≤ s.grid_size) :
    inGrid s.grid_size s.empty_pos := by
  have ha : inGrid (initState s.grid_size).grid_size (initState s.grid_size).empty_pos := by
    unfold initState inGrid
    dsimp only
    omega
  exact (reflTrans_preserves _ _ h ha).2

theorem valid_moves_length (s : PState) :
    (get_valid_moves s).length =
      (if 0 ≤ s.empty_pos.1 ∧ s.empty_pos.1 < (s.grid_size : ℤ) ∧ 0 ≤ s.empty_pos.2 + 1 ∧
          s.empty_pos.2 + 1 < (s.grid_size : ℤ) then 1 else 0) +
      (if 0 ≤ s.empty_pos.1 ∧ s.empty_pos.1 < (s.grid_size : ℤ) ∧ 0 ≤ s.empty_pos.2 - 1 ∧
          s.empty_pos.2 - 1 < (s.grid_size : ℤ) then 1 else 0) +
      (if 0 ≤ s.empty_pos.1 + 1 ∧ s.empty_pos.1 + 1 < (s.grid_size : ℤ) ∧ 0 ≤ s.empty_pos.2 ∧
          s.empty_pos.2 < (s.grid_size : ℤ) then 1 else 0) +
      (if 0 ≤ s.empty_pos.1 - 1 ∧ s.empty_pos.1 - 1 < (s.grid_size : ℤ) ∧ 0 ≤ s.empty_pos.2 ∧
          s.empty_pos.2 < (s.grid_size : ℤ) then 1 else 0) := by
  unfold get_valid_moves
  simp only [List.filter_cons, List.filter_nil, decide_eq_true_eq]
  split_ifs <;> simp

/-- C7: in every reachable state of a puzzle with grid size `n ≥ 2`,
`get_valid_moves` returns between 2 and 4 cells, each 4-adjacent to
`empty_pos` and inside the grid; an empty cell in a corner yields exactly
2 candidates, on an edge exactly 3, and in the interior exactly 4. -/
theorem valid_moves_counts (s : PState) (hr : Reachable s) (hn : 2 ≤ s.grid_size) :
    (2 ≤ (get_valid_moves s).length ∧ (get_valid_moves s).length ≤ 4) ∧
    (∀ c ∈ get_valid_moves s, adj4 c s.empty_pos ∧ inGrid s.grid_size c) ∧
    (((s.empty_pos.1 = 0 ∨ s.empty_pos.1 = (s.grid_size : ℤ) - 1) ∧
      (s.empty_pos.2 = 0 ∨ s.empty_pos.2 = (s.grid_size : ℤ) - 1)) →
      (get_valid_moves s).length = 2) ∧
    ((((s.empty_pos.1 = 0 ∨ s.empty_pos.1 = (s.grid_size : ℤ) - 1) ∧
       ¬(s.empty_pos.2 = 0 ∨ s.empty_pos.2 = (s.grid_size : ℤ) - 1)) ∨
      (¬(s.empty_pos.1 = 0 ∨ s.empty_pos.1 = (s.grid_size : ℤ) - 1) ∧
       (s.empty_pos.2 = 0 ∨ s.empty_pos.2 = (s.grid_size : ℤ) - 1))) →
      (get_valid_moves s).length = 3) ∧
    ((¬(s.empty_pos.1 = 0 ∨ s.empty_pos.1 = (s.grid_size : ℤ) - 1) ∧
      ¬(s.empty_pos.2 = 0 ∨ s.empty_pos.2 = (s.grid_size : ℤ) - 1)) →
      (get_valid_moves s).length = 4) := by
  have he : inGrid s.grid_size s.empty_pos := reachable_empty_in_grid s hr (by omega)
  obtain ⟨he1, he2, he3, he4⟩ := he
  have hmem : ∀ c ∈ get_valid_moves s, adj4 c s.empty_pos ∧ inGrid s.grid_size c := by
    intro c hc
    have hg := valid_moves_in_grid s c hc
    refine ⟨?_, hg⟩
    unfold get_valid_moves at hc
    rw [List.mem_filter] at hc
    have hin := hc.1
    simp only [List.mem_cons, List.not_mem_nil, or_false] at hin
    unfold adj4
    rcases hin with rfl | rfl | rfl | rfl <;> simp
  refine ⟨⟨?_, ?_⟩, hmem, ?_, ?_, ?_⟩ <;> rw [valid_moves_length s] <;>
    split_ifs <;> omega

/-- Witness for C7: the freshly initialised 2×2 state is reachable, has
grid size 2, and its valid-move list length lies between 2 and 4. -/
theorem valid_moves_counts_witness :
    Reachable (initState 2) ∧ 2 ≤ (initState 2).grid_size ∧
    2 ≤ (get_valid_moves (initState 2)).length ∧
    (get_valid_moves (initState 2)).length ≤ 4 :=
  ⟨Relation.ReflTransGen.refl, by decide,
    (valid_moves_counts (initState 2) Relation.ReflTransGen.refl (by decide)).1.1,
    (valid_moves_counts (initState 2) Relation.ReflTransGen.refl (by decide)).1.2⟩

theorem valid_moves_ne_empty (s : PState) (p : ℤ × ℤ) (hp : p ∈ get_valid_moves s) :
    p ≠ s.empty_pos := by
  unfold get_valid_moves at hp
  rw [List.mem_filter] at hp
  have hin := hp.1
  simp only [List.mem_cons, List.not_mem_nil, or_false] at hin
  rcases hin with rfl | rfl | rfl | rfl <;>
    intro hc <;> rw [Prod.ext_iff] at hc <;> omega

theorem updateFirst_eq_map (c : ℤ × ℤ) (f : Tile → Tile) (l : List Tile)
    (hd : (l.map Tile.grid_pos).Nodup) :
    updateFirst (fun t => decide (t.grid_pos = c)) f l =
      l.map (fun t => if t.grid_pos = c then f t else t) := by
  induction l with
  | nil => rfl
  | cons t ts ih =>
    rw [List.map_cons] at hd
    rw [List.nodup_cons] at hd
    obtain ⟨hhead, htail⟩ := hd
    unfold updateFirst
    by_cases h : t.grid_pos = c
    · rw [if_pos (by simp [h]), List.map_cons, if_pos h]
      congr 1
      have hid : ∀ u ∈ ts, (if u.grid_pos = c then f u else u) = u := by
        intro u hu
        rw [if_neg]
        intro hc2
        have heq : t.grid_pos = u.grid_pos := by rw [h, hc2]
        exact hhead (heq ▸ List.mem_map_of_mem Tile.grid_pos hu)
      symm
      rw [List.map_congr_left hid]
      simp
    · rw [if_neg (by simp [h]), List.map_cons, if_neg h, ih htail]

theorem swap_tiles_tiles_eq (s : PState) (p : ℤ × ℤ) (c : Bool) (t : Tile)
    (hf : get_tile_at_pos s.tiles p = some t) (h0 : t.number ≠ 0)
    (hd : (s.tiles.map Tile.grid_pos).Nodup) (hne : p ≠ s.empty_pos) :
    (swap_tiles s p c).tiles =
      s.tiles.map (fun u =>
        if u.grid_pos = p then { u with target_pos := s.empty_pos }
        else if u.grid_pos = s.empty_pos then { u with target_pos := t.grid_pos }
        else u) ∧
    (swap_tiles s p c).empty_pos = t.grid_pos := by
  have htg : t.grid_pos = p := get_tile_at_pos_grid s.tiles p t hf
  simp only [swap_tiles, hf]
  rw [if_neg h0]
  dsimp only
  constructor
  · rw [updateFirst_eq_map p _ s.tiles hd]
    have hd1 : ((s.tiles.map (fun u =>
        if u.grid_pos = p then { u with target_pos := s.empty_pos } else u)).map
          Tile.grid_pos).Nodup := by
      rw [List.map_map]
      have : (Tile.grid_pos ∘ fun u =>
          if u.grid_pos = p then { u with target_pos := s.empty_pos } else u) =
          Tile.grid_pos := by
        funext u
        by_cases h : u.grid_pos = p <;> simp [Function.comp, h]
      rw [this]
      exact hd
    rw [updateFirst_eq_map s.empty_pos _ _ hd1, List.map_map]
    apply List.map_congr_left
    intro u _
    by_cases h1 : u.grid_pos = p
    · simp only [Function.comp, if_pos h1]
      have hcn : ¬ (u.grid_pos = s.empty_pos) := by rw [h1]; exact hne
      rw [if_neg hcn]
    · simp only [Function.comp, if_neg h1]
  · rfl

theorem retarget_number (a b : ℤ × ℤ) (u : Tile) : (retarget a b u).number = u.number := by
  unfold retarget
  split_ifs <;> rfl

theorem retarget_grid (a b : ℤ × ℤ) (u : Tile) : (retarget a b u).grid_pos = u.grid_pos := by
  unfold retarget
  split_ifs <;> rfl

theorem settle_number (u : Tile) : (Tile.settle u).number = u.number := rfl

theorem settle_grid (u : Tile) : (Tile.settle u).grid_pos = u.target_pos := rfl

theorem settle_settled (u : Tile) : (Tile.settle u).target_pos = (Tile.settle u).grid_pos := rfl

theorem settle_retarget_grid (a b : ℤ × ℤ) (u : Tile) (hu : u.target_pos = u.grid_pos) :
    (Tile.settle (retarget a b u)).grid_pos =
      (if u.grid_pos = a then b else if u.grid_pos = b then a else u.grid_pos) := by
  unfold retarget
  split_ifs with h1 h2 <;> simp [Tile.settle, hu]

theorem find?_map_congr (l : List Tile) (f : Tile → Tile) (p q : Tile → Bool)
    (h : ∀ u ∈ l, p (f u) = q u) :
    (l.map f).find? p = Option.map f (l.find? q) := by
  induction l with
  | nil => rfl
  | cons t ts ih =>
    rw [List.map_cons]
    by_cases hq : q t = true
    · rw [List.find?_cons_of_pos _ ((h t (List.mem_cons_self t ts)).trans hq),
        List.find?_cons_of_pos _ hq]
      rfl
    · rw [List.find?_cons_of_neg _ (by rw [h t (List.mem_cons_self t ts)]; simpa using hq),
        List.find?_cons_of_neg _ (by simpa using hq)]
      exact ih (fun u hu => h u (List.mem_cons_of_mem t hu))

/-- C8: on any settled well-formed board, playing a legal move `p` and
then — after the animation engine has committed the move — playing the
single legal move that re-occupies the original empty cell returns the
Grid Model to its prior permutation: tile numbers sit on exactly the cells
they occupied before, and `empty_pos` is restored (moves are self-inverse
in this domain). -/
theorem move_roundtrip (s : PState) (p : ℤ × ℤ)
    (hwf : WellFormed s) (hst : Settled s) (hp : p ∈ get_valid_moves s) :
    ∃ k₁ k₂,
      gridConfig (update^[k₂] (swap_tiles (update^[k₁] (swap_tiles s p true))
          s.empty_pos true)) = gridConfig s ∧
      (update^[k₂] (swap_tiles (update^[k₁] (swap_tiles s p true))
          s.empty_pos true)).empty_pos = s.empty_pos := by
  obtain ⟨hd, hocc, h0iff, heg⟩ := hwf
  have hpg := valid_moves_in_grid s p hp
  have hne := valid_moves_ne_empty s p hp
  obtain ⟨t, hf⟩ : ∃ t, get_tile_at_pos s.tiles p = some t := by
    obtain ⟨t0, ht0, hg0⟩ := hocc p hpg
    have hs : (s.tiles.find? (fun u => decide (u.grid_pos = p))).isSome = true := by
      rw [List.find?_isSome]
      exact ⟨t0, ht0, by simp [hg0]⟩
    cases hcase : s.tiles.find? (fun u => decide (u.grid_pos = p)) with
    | none => rw [hcase] at hs; simp at hs
    | some t => exact ⟨t, hcase⟩
  have htm : t ∈ s.tiles := get_tile_at_pos_mem s.tiles p t hf
  have htg : t.grid_pos = p := get_tile_at_pos_grid s.tiles p t hf
  have ht0 : t.number ≠ 0 := by
    intro hz
    exact hne (by rw [← htg]; exact (h0iff t htm).1 hz)
  obtain ⟨hs1t0, hs1e0⟩ := swap_tiles_tiles_eq s p true t hf ht0 hd hne
  have hs1t : (swap_tiles s p true).tiles = s.tiles.map (retarget p s.empty_pos) := by
    rw [hs1t0]
    apply List.map_congr_left
    intro u _
    simp only [retarget, htg]
  have hs1e : (swap_tiles s p true).empty_pos = p := by rw [hs1e0, htg]
  obtain ⟨k₁, hk₁⟩ := tiles_settle (swap_tiles s p true).tiles
  obtain ⟨hu1t, hu1e, hu1m, hu1g⟩ := update_iterate (swap_tiles s p true) k₁
  have hs2t : (update^[k₁] (swap_tiles s p true)).tiles
      = s.tiles.map (fun u => Tile.settle (retarget p s.empty_pos u)) := by
    have hset : (swap_tiles s p true).tiles.map (Tile.animate^[k₁])
        = (swap_tiles s p true).tiles.map Tile.settle :=
      List.map_congr_left (fun u hu => hk₁ u hu k₁ le_rfl)
    rw [hu1t, hset, hs1t, List.map_map]
    rfl
  have hs2e : (update^[k₁] (swap_tiles s p true)).empty_pos = p := by rw [hu1e, hs1e]
  have hfind2 : get_tile_at_pos (update^[k₁] (swap_tiles s p true)).tiles s.empty_pos
      = some (Tile.settle (retarget p s.empty_pos t)) := by
    rw [hs2t]
    unfold get_tile_at_pos
    have hagree : ∀ u ∈ s.tiles,
        (fun v => decide (v.grid_pos = s.empty_pos)) (Tile.settle (retarget p s.empty_pos u))
          = (fun u => decide (u.grid_pos = p)) u := by
      intro u hu
      simp only []
      rw [settle_retarget_grid p s.empty_pos u (hst u hu)]
      by_cases h1 : u.grid_pos = p
      · rw [if_pos h1]
        simp [h1]
      · rw [if_neg h1]
        by_cases h2 : u.grid_pos = s.empty_pos
        · rw [if_pos h2]
          simp [h1, h2, hne, Ne.symm hne]
        · rw [if_neg h2]
          simp [h1, h2]
    rw [find?_map_congr s.tiles _ _ (fun u => decide (u.grid_pos = p)) hagree]
    have hf' : s.tiles.find? (fun u => decide (u.grid_pos = p)) = some t := hf
    rw [hf']
    rfl
  have h0₂ : (Tile.settle (retarget p s.empty_pos t)).number ≠ 0 := by
    rw [settle_number, retarget_number]
    exact ht0
  have hd₂ : ((update^[k₁] (swap_tiles s p true)).tiles.map Tile.grid_pos).Nodup := by
    rw [hs2t]
    have hmapeq : (s.tiles.map (fun u => Tile.settle (retarget p s.empty_pos u))).map
          Tile.grid_pos
        = (s.tiles.map Tile.grid_pos).map
            (fun z => if z = p then s.empty_pos else if z = s.empty_pos then p else z) := by
      rw [List.map_map, List.map_map]
      apply List.map_congr_left
      intro u hu
      simp only [Function.comp]
      rw [settle_retarget_grid p s.empty_pos u (hst u hu)]
    rw [hmapeq]
    apply List.Nodup.map _ hd
    intro a b hab
    by_cases ha1 : a = p <;> by_cases ha2 : a = s.empty_pos <;>
      by_cases hb1 : b = p <;> by_cases hb2 : b = s.empty_pos <;>
      simp_all
  have hne₂ : s.empty_pos ≠ (update^[k₁] (swap_tiles s p true)).empty_pos := by
    rw [hs2e]
    exact Ne.symm hne
  obtain ⟨hs3t0, hs3e0⟩ := swap_tiles_tiles_eq (update^[k₁] (swap_tiles s p true))
    s.empty_pos true (Tile.settle (retarget p s.empty_pos t)) hfind2 h0₂ hd₂ hne₂
  have hψtg : (Tile.settle (retarget p s.empty_pos t)).grid_pos = s.empty_pos := by
    rw [settle_retarget_grid p s.empty_pos t (hst t htm), if_pos htg]
  have hs3e : (swap_tiles (update^[k₁] (swap_tiles s p true)) s.empty_pos true).empty_pos
      = s.empty_pos := by rw [hs3e0, hψtg]
  have hs3t : (swap_tiles (update^[k₁] (swap_tiles s p true)) s.empty_pos true).tiles
      = s.tiles.map (fun u => retarget s.empty_pos p (Tile.settle (retarget p s.empty_pos u))) := by
    rw [hs3t0, hs2t, List.map_map]
    apply List.map_congr_left
    intro u hu
    simp only [Function.comp]
    rw [hs2e, hψtg]
    simp only [retarget]
  obtain ⟨k₂, hk₂⟩ :=
    tiles_settle (swap_tiles (update^[k₁] (swap_tiles s p true)) s.empty_pos true).tiles
  obtain ⟨hu2t, hu2e, hu2m, hu2g⟩ :=
    update_iterate (swap_tiles (update^[k₁] (swap_tiles s p true)) s.empty_pos true) k₂
  refine ⟨k₁, k₂, ?_, ?_⟩
  · unfold gridConfig
    have hset2 : (swap_tiles (update^[k₁] (swap_tiles s p true))
          s.empty_pos true).tiles.map (Tile.animate^[k₂])
        = (swap_tiles (update^[k₁] (swap_tiles s p true))
            s.empty_pos true).tiles.map Tile.settle :=
      List.map_congr_left (fun u hu => hk₂ u hu k₂ le_rfl)
    rw [hu2t, hset2, hs3t, List.map_map, List.map_map]
    apply List.map_congr_left
    intro u hu
    simp only [Function.comp]
    rw [Prod.ext_iff]
    constructor
    · simp only []
      rw [settle_number, retarget_number, settle_number, retarget_number]
    · simp only []
      rw [settle_retarget_grid s.empty_pos p _ (settle_settled _)]
      rw [settle_retarget_grid p s.empty_pos u (hst u hu)]
      by_cases h1 : u.grid_pos = p
      · rw [if_pos h1, if_pos rfl]
        exact h1.symm
      · rw [if_neg h1]
        by_cases h2 : u.grid_pos = s.empty_pos
        · rw [if_pos h2, if_neg hne, if_pos rfl]
          exact h2.symm
        · rw [if_neg h2, if_neg h2, if_neg h1]
  · rw [hu2e, hs3e]

/-- Witness for C8: the solved 2×2 board is well-formed and settled,
(1,0) is a legal move there, and the round trip restores the grid. -/
theorem move_roundtrip_witness :
    WellFormed (initState 2) ∧ Settled (initState 2) ∧
    ((1, 0) ∈ get_valid_moves (initState 2)) ∧
    ∃ k₁ k₂,
      gridConfig (update^[k₂] (swap_tiles (update^[k₁] (swap_tiles (initState 2) (1, 0) true))
          (initState 2).empty_pos true)) = gridConfig (initState 2) ∧
      (update^[k₂] (swap_tiles (update^[k₁] (swap_tiles (initState 2) (1, 0) true))
          (initState 2).empty_pos true)).empty_pos = (initState 2).empty_pos := by
  have hwf : WellFormed (initState 2) := by
    refine ⟨by decide, ?_, by decide, by decide⟩
    intro c hc
    rcases c with ⟨x, y⟩
    have hb : 0 ≤ x ∧ x < 2 ∧ 0 ≤ y ∧ y < 2 := by
      simpa [inGrid, initState] using hc
    obtain ⟨h1, h2, h3, h4⟩ := hb
    interval_cases x <;> interval_cases y <;> decide
  have hst : Settled (initState 2) := by
    unfold Settled
    decide
  exact ⟨hwf, hst, by decide,
    move_roundtrip (initState 2) (1, 0) hwf hst (by decide)⟩

/-- Witness for C5: applying the theorem at grid size 2 shows the solved
pre-shuffle 2×2 configuration passes `check_win_condition`. -/
theorem check_win_iff_expected_cells_witness :
    check_win_condition (initState 2) = true :=
  check_win_iff_expected_cells.2 2 (by decide)
